import Mathlib

/-!
Verification development for the kube-xset core: a shallow embedding of the
instance-ID allocator (`resourcecontexts/resource_context.go`), the revision
decider, the reconciler gating logic and the teardown orchestrator
(`xset_controller.go`), and the target label helpers (`xcontrol/utils.go`),
together with theorems settling the specification claims.

Go `map[string]string` data bags are embedded as association lists with
map semantics (lookup finds the unique binding; insertion overwrites).
Go `map[int]*ContextDetail` tables are embedded as association lists over
`Int` keys; Go map iteration order is only used by the source in
order-insensitive ways (counting, key-indexed updates, set-merges), so the
list order never influences the properties proved here.
-/

namespace KubeXSet

/-! ### Data bags (`map[string]string` inside a ContextDetail, target labels) -/

abbrev DataMap := List (String × String)

def getData : DataMap → String → Option String
  | [], _ => none
  | (k', v) :: rest, k => if k' = k then some v else getData rest k

def putData : DataMap → String → String → DataMap
  | [], k, v => [(k, v)]
  | (k', v') :: rest, k, v =>
    if k' = k then (k, v) :: rest else (k', v') :: putData rest k v

def removeData : DataMap → String → DataMap
  | [], _ => []
  | (k', v) :: rest, k =>
    if k' = k then removeData rest k else (k', v) :: removeData rest k

/-- Modelled from the spec: `api.ContextDetail.Contains` (api package, not under
src/) reads the key and compares the stored value with the given one. -/
def containsData (d : DataMap) (k v : String) : Bool :=
  match getData d k with
  | some v' => v' == v
  | none => false

theorem getData_putData_self (d : DataMap) (k v : String) :
    getData (putData d k v) k = some v := by
  induction d with
  | nil => simp [putData, getData]
  | cons p rest ih =>
    by_cases h : p.1 = k
    · simp [putData, h, getData]
    · simp [putData, h, getData, ih]

theorem getData_putData_other (d : DataMap) (k v k' : String) (h : k' ≠ k) :
    getData (putData d k v) k' = getData d k' := by
  have hne : k ≠ k' := Ne.symm h
  induction d with
  | nil => simp [putData, getData, hne]
  | cons p rest ih =>
    by_cases hp : p.1 = k
    · simp [putData, hp, getData, hne, hp.symm ▸ hne]
    · simp only [putData, hp, if_false, getData]
      by_cases hk : p.1 = k'
      · simp [hk]
      · simp [hk, ih]

theorem getData_removeData_self (d : DataMap) (k : String) :
    getData (removeData d k) k = none := by
  induction d with
  | nil => simp [removeData, getData]
  | cons p rest ih =>
    obtain ⟨pk, pv⟩ := p
    by_cases h : pk = k
    · simpa [removeData, h] using ih
    · simpa [removeData, getData, h] using ih

theorem getData_removeData_other (d : DataMap) (k k' : String) (h : k' ≠ k) :
    getData (removeData d k) k' = getData d k' := by
  induction d with
  | nil => simp [removeData, getData]
  | cons p rest ih =>
    obtain ⟨pk, pv⟩ := p
    have hkk : ¬ k = k' := fun hh => h hh.symm
    by_cases hp : pk = k
    · simpa [removeData, hp, getData, hkk] using ih
    · by_cases hk : pk = k'
      · simp [removeData, getData, hp, hk, h]
      · simpa [removeData, getData, hp, hk] using ih

/-! ### ContextDetail and the enum→string context key table -/

structure ContextDetail where
  ID : Int
  Data : DataMap
deriving DecidableEq, Repr

inductive CtxKey
  | owner
  | revision
  | justCreate
  | recreateUpdate
  | replaceOriginTargetID
  | targetDecorationRevision
deriving DecidableEq, Repr

/-- Modelled from the spec: the default enum→string context key table
(`defaultResourceContextKeys`, not under src/); the strings for `Owner`,
`Revision` and `TargetJustCreate` are the ones visible in
`resource_context_test.go`, the rest follow the spec's key names. Only
distinctness of the strings matters for the proofs. -/
def ctxKeyStr : CtxKey → String
  | .owner => "Owner"
  | .revision => "Revision"
  | .justCreate => "TargetJustCreate"
  | .recreateUpdate => "TargetRecreateUpdate"
  | .replaceOriginTargetID => "ReplaceOriginTargetID"
  | .targetDecorationRevision => "TargetDecorationRevision"

theorem ctxKeyStr_injective (a b : CtxKey) (h : ctxKeyStr a = ctxKeyStr b) : a = b := by
  cases a <;> cases b <;> first
    | rfl
    | exact absurd h (by decide)

def rGet (d : ContextDetail) (e : CtxKey) : Option String :=
  getData d.Data (ctxKeyStr e)

def rContains (d : ContextDetail) (e : CtxKey) (v : String) : Bool :=
  containsData d.Data (ctxKeyStr e) v

def rPut (d : ContextDetail) (e : CtxKey) (v : String) : ContextDetail :=
  { d with Data := putData d.Data (ctxKeyStr e) v }

def rRemove (d : ContextDetail) (e : CtxKey) : ContextDetail :=
  { d with Data := removeData d.Data (ctxKeyStr e) }

/-! ### Counting lemmas used for the ID-scan loop termination -/

theorem length_filter_imp_le (l : List Int) (p q : Int → Bool)
    (h : ∀ x, p x = true → q x = true) :
    (l.filter p).length ≤ (l.filter q).length := by
  induction l with
  | nil => simp
  | cons b t ih =>
    cases hb : p b with
    | true =>
      have hq : q b = true := h b hb
      simp [List.filter_cons, hb, hq]
      omega
    | false =>
      cases hq : q b with
      | true =>
        simp [List.filter_cons, hb, hq]
        omega
      | false =>
        simpa [List.filter_cons, hb, hq] using ih

theorem length_filter_ge_succ_le (l : List Int) (a : Int) :
    (l.filter (fun x => a + 1 ≤ x)).length ≤ (l.filter (fun x => a ≤ x)).length := by
  apply length_filter_imp_le
  intro x hx
  simp only [decide_eq_true_eq] at hx ⊢
  omega

theorem length_filter_ge_succ_lt (l : List Int) (a : Int) (h : a ∈ l) :
    (l.filter (fun x => a + 1 ≤ x)).length < (l.filter (fun x => a ≤ x)).length := by
  induction l with
  | nil => simp at h
  | cons b t ih =>
    by_cases hb : a = b
    · have h1 : (decide (a + 1 ≤ b)) = false := by
        simp only [decide_eq_false_iff_not]
        omega
      have h2 : (decide (a ≤ b)) = true := by
        simp only [decide_eq_true_eq]
        omega
      have h3 := length_filter_ge_succ_le t a
      simp [List.filter_cons, h1, h2]
      omega
    · have hmem : a ∈ t := by
        rcases List.mem_cons.mp h with h' | h'
        · exact absurd h' hb
        · exact h'
      have hlt := ih hmem
      cases h1 : (decide (a + 1 ≤ b)) with
      | true =>
        have h2 : (decide (a ≤ b)) = true := by
          simp only [decide_eq_true_eq] at h1 ⊢
          omega
        simp [List.filter_cons, h1, h2]
        omega
      | false =>
        cases h2 : (decide (a ≤ b)) with
        | true =>
          simp [List.filter_cons, h1, h2]
          omega
        | false =>
          simpa [List.filter_cons, h1, h2] using hlt

/-! ### Target objects and label helpers (`xcontrol/utils.go`) -/

/-- Modelled from the spec: the concrete label key strings are produced by the
adapter-supplied `XSetLabelAnnotationManager`; only their identity matters. -/
def instanceIdLabelKey : String := "instance-id"

def replacePairOriginLabelKey : String := "replace-pair-origin"

def revisionLabelKey : String := "revision"

/-- A child target object: its labels (`none` embeds a nil Go label map) and
whether it carries a deletion timestamp. -/
structure TargetObj where
  labels : Option DataMap
  hasDeletionTimestamp : Bool
deriving DecidableEq, Repr

def targetHasLabel (t : TargetObj) (k : String) : Bool :=
  match t.labels with
  | none => false
  | some ls => (getData ls k).isSome

def digitVal (c : Char) : Nat := c.toNat - '0'.toNat

/-- Embedding of Go `strconv.ParseInt(val, 10, 32)`: optional sign, one or more
decimal digits, result required to fit in int32; `none` embeds a parse error. -/
def parseInt32 (s : String) : Option Int :=
  let cs := s.toList
  let signed : Bool × List Char :=
    match cs with
    | '-' :: rest => (true, rest)
    | '+' :: rest => (false, rest)
    | _ => (false, cs)
  let ds := signed.2
  if ds.isEmpty then none
  else if ds.all Char.isDigit then
    let n : Int := Int.ofNat (ds.foldl (fun a c => a * 10 + digitVal c) 0)
    let v : Int := if signed.1 then -n else n
    if -(2 ^ 31) ≤ v ∧ v ≤ 2 ^ 31 - 1 then some v else none
  else none

/-- Embedding of `xcontrol.GetInstanceID`: `none` embeds the error return. -/
def GetInstanceID (t : TargetObj) : Option Int :=
  match t.labels with
  | none => none
  | some ls =>
    match getData ls instanceIdLabelKey with
    | none => none
    | some val => parseInt32 val

/-- Modelled from the spec: `xcontrol.GetTargetRevision` is not under src/;
spec §4.A step 3 records "target.revision-label or defaultRevision". -/
def GetTargetRevision (t : TargetObj) (defaultRevision : String) : String :=
  match t.labels with
  | none => defaultRevision
  | some ls =>
    match getData ls revisionLabelKey with
    | some r => r
    | none => defaultRevision

/-! ### Int-keyed maps (`map[int]*ContextDetail`, `map[int]string`) -/

def mapKeys {α : Type} (m : List (Int × α)) : List Int := m.map Prod.fst

def mapFind {α : Type} : List (Int × α) → Int → Option α
  | [], _ => none
  | p :: rest, k => if p.1 = k then some p.2 else mapFind rest k

/-- Go map assignment `m[k] = v`: overwrite the binding if present, else add. -/
def mapInsert {α : Type} (m : List (Int × α)) (k : Int) (v : α) : List (Int × α) :=
  match mapFind m k with
  | some _ => m.map (fun p => if p.1 = k then (k, v) else p)
  | none => m ++ [(k, v)]

theorem mapFind_eq_none {α : Type} (m : List (Int × α)) (k : Int) :
    mapFind m k = none ↔ k ∉ mapKeys m := by
  induction m with
  | nil => simp [mapFind, mapKeys]
  | cons p rest ih =>
    by_cases h : p.1 = k
    · simp [mapFind, mapKeys, h]
    · have h' : ¬ k = p.1 := fun hh => h hh.symm
      simp [mapFind, mapKeys, h, h', ih]

theorem mapFind_isSome {α : Type} (m : List (Int × α)) (k : Int) :
    (mapFind m k).isSome = true ↔ k ∈ mapKeys m := by
  rw [Option.isSome_iff_ne_none, ne_eq, mapFind_eq_none]
  simp

theorem mapFind_append_single {α : Type} (m : List (Int × α)) (k : Int) (v : α) (x : Int)
    (hf : mapFind m k = none) :
    mapFind (m ++ [(k, v)]) x = if x = k then some v else mapFind m x := by
  induction m with
  | nil =>
    by_cases hx : x = k
    · simp [mapFind, hx]
    · have hx' : ¬ k = x := fun hh => hx hh.symm
      simp [mapFind, hx, hx']
  | cons p rest ih =>
    by_cases hp : p.1 = k
    · simp [mapFind, hp] at hf
    · simp only [mapFind, hp, if_false] at hf
      by_cases hpx : p.1 = x
      · have hxk : ¬ x = k := fun hh => hp (hpx.trans hh)
        simp [mapFind, hpx, hxk]
      · simp only [List.cons_append, mapFind, hpx, if_false]
        exact ih hf

theorem mapFind_replaceKey {α : Type} (m : List (Int × α)) (k : Int) (v : α) (x : Int) :
    mapFind (m.map (fun p => if p.1 = k then (k, v) else p)) x
      = if x = k then (match mapFind m k with | some _ => some v | none => none)
        else mapFind m x := by
  induction m with
  | nil => by_cases hx : x = k <;> simp [mapFind, hx]
  | cons p rest ih =>
    by_cases hp : p.1 = k
    · by_cases hx : x = k
      · simp [mapFind, hp, hx]
      · have hx' : ¬ k = x := fun hh => hx hh.symm
        simp [mapFind, hp, hx, hx', ih]
    · by_cases hpx : p.1 = x
      · have hxk : ¬ x = k := fun hh => hp (hpx.trans hh)
        simp [mapFind, hp, hpx, hxk]
      · simp [mapFind, hp, hpx, ih]

theorem mapFind_mapInsert {α : Type} (m : List (Int × α)) (k : Int) (v : α) (x : Int) :
    mapFind (mapInsert m k v) x = if x = k then some v else mapFind m x := by
  unfold mapInsert
  cases hf : mapFind m k with
  | none => exact mapFind_append_single m k v x hf
  | some v0 => simp [mapFind_replaceKey, hf]

theorem mapKeys_replaceKey {α : Type} (m : List (Int × α)) (k : Int) (v : α)
    (hk : k ∈ mapKeys m) :
    mapKeys (m.map (fun p => if p.1 = k then (k, v) else p)) = mapKeys m := by
  induction m with
  | nil => rfl
  | cons p rest ih =>
    simp only [mapKeys, List.map_cons] at *
    by_cases hp : p.1 = k
    · have : mapKeys (rest.map (fun p => if p.1 = k then (k, v) else p))
          = mapKeys rest ∨ k ∉ mapKeys rest := by
        by_cases hmem : k ∈ mapKeys rest
        · exact Or.inl (ih hmem)
        · exact Or.inr hmem
      cases this with
      | inl h2 =>
        simp only [mapKeys] at h2
        simp [hp, h2]
      | inr h2 =>
        have hrw : List.map Prod.fst (rest.map (fun p => if p.1 = k then (k, v) else p))
            = List.map Prod.fst rest := by
          rw [List.map_map]
          apply List.map_congr_left
          intro a ha
          by_cases hak : a.1 = k
          · exact absurd (hak ▸ List.mem_map_of_mem Prod.fst ha) h2
          · simp [Function.comp, hak]
        simp [hp, hrw]
    · rcases List.mem_cons.mp hk with hk1 | hk1
      · exact absurd hk1.symm hp
      · have h2 := ih hk1
        simp only [mapKeys] at h2
        simp [hp, h2]

theorem mem_mapKeys_mapInsert {α : Type} (m : List (Int × α)) (k : Int) (v : α) (x : Int) :
    x ∈ mapKeys (mapInsert m k v) ↔ x ∈ mapKeys m ∨ x = k := by
  unfold mapInsert
  cases hf : mapFind m k with
  | none =>
    simp [mapKeys, List.map_append]
  | some v0 =>
    have hk : k ∈ mapKeys m := by
      have := (mapFind_isSome m k).mp (by simp [hf])
      exact this
    rw [mapKeys_replaceKey m k v hk]
    constructor
    · exact Or.inl
    · rintro (h | h)
      · exact h
      · exact h ▸ hk

theorem mapKeys_mapInsert_nodup {α : Type} (m : List (Int × α)) (k : Int) (v : α)
    (h : (mapKeys m).Nodup) : (mapKeys (mapInsert m k v)).Nodup := by
  unfold mapInsert
  cases hf : mapFind m k with
  | none =>
    have hk : k ∉ mapKeys m := (mapFind_eq_none m k).mp hf
    have hrw : mapKeys (m ++ [(k, v)]) = mapKeys m ++ [k] := by
      simp [mapKeys]
    rw [hrw]
    refine List.Nodup.append h (List.nodup_singleton k) ?_
    intro a ha hb
    simp at hb
    exact hk (hb ▸ ha)
  | some v0 =>
    have hk : k ∈ mapKeys m := (mapFind_isSome m k).mp (by simp [hf])
    rw [mapKeys_replaceKey m k v hk]
    exact h

theorem length_mapInsert_new {α : Type} (m : List (Int × α)) (k : Int) (v : α)
    (h : k ∉ mapKeys m) : (mapInsert m k v).length = m.length + 1 := by
  unfold mapInsert
  rw [(mapFind_eq_none m k).mpr h]
  simp

theorem wellFormed_mapInsert (m : List (Int × ContextDetail)) (k : Int) (v : ContextDetail)
    (hm : ∀ p ∈ m, p.1 = p.2.ID) (hv : k = v.ID) :
    ∀ p ∈ mapInsert m k v, p.1 = p.2.ID := by
  unfold mapInsert
  cases mapFind m k with
  | none =>
    intro p hp
    rcases List.mem_append.mp hp with h | h
    · exact hm p h
    · simp at h
      rw [h]
      exact hv
  | some v0 =>
    intro p hp
    rcases List.mem_map.mp hp with ⟨q, hq, hpq⟩
    by_cases hqk : q.1 = k
    · simp [hqk] at hpq
      rw [← hpq]
      exact hv
    · simp [hqk] at hpq
      rw [← hpq]
      exact hm q hq


/-! ### XSet spec model and client error model -/

structure ByPartitionM where
  Partition : Option Int
deriving DecidableEq, Repr

structure RollingUpdateM where
  ByLabel : Bool
  ByPartition : Option ByPartitionM
deriving DecidableEq, Repr

structure XSetSpecM where
  Replicas : Option Int
  RollingUpdate : Option RollingUpdateM
  ScaleStrategyContext : String
deriving DecidableEq, Repr

/-- Kubernetes API-server error reasons distinguished by the embedded code;
an `Option ApiError` embeds a Go `error` value (`none` = nil error). -/
inductive ApiError
  | forbidden
  | invalid
  | conflict
  | tooManyRequests
  | notFound
  | other
deriving DecidableEq, Repr

/-- Embedding of `UnrecoverableCreateError`. -/
def UnrecoverableCreateError : Option ApiError → Bool
  | some .forbidden => true
  | some .invalid => true
  | _ => false

/-! ### Revision decider (`resource_context.go`) -/

/-- Embedding of `DecideContextRevisionAfterCreate`; returns the possibly
rewritten detail together with the `needUpdateContext` boolean. -/
def DecideContextRevisionAfterCreate (contextDetail : ContextDetail)
    (updatedRevisionName : String) (createErr : Option ApiError) :
    ContextDetail × Bool :=
  if UnrecoverableCreateError createErr then
    if rContains contextDetail .justCreate "true"
        || rContains contextDetail .recreateUpdate "true" then
      (rRemove (rPut contextDetail .revision updatedRevisionName) .targetDecorationRevision,
        true)
    else
      (contextDetail, false)
  else
    (rRemove (rRemove contextDetail .justCreate) .recreateUpdate, true)

/-- Embedding of `DecideContextsRevisionBeforeCreate`: returns the `newIDs`
table with revisions stamped.  The Go loop iterates the `newIDs` map in
unspecified order, but each entry's stamp depends only on its own key, so a
structural map over the entries is behaviour-identical. -/
def DecideContextsRevisionBeforeCreate (ownedIDs newIDs : List (Int × ContextDetail))
    (spec : XSetSpecM) (currentRevision updatedRevision : String) :
    List (Int × ContextDetail) :=
  match spec.RollingUpdate with
  | none => newIDs.map (fun p => (p.1, rPut p.2 .revision updatedRevision))
  | some ru =>
    if ru.ByLabel then
      newIDs.map (fun p => (p.1, rPut p.2 .revision currentRevision))
    else
      match ru.ByPartition with
      | none => newIDs.map (fun p => (p.1, rPut p.2 .revision updatedRevision))
      | some bp =>
        match bp.Partition with
        | none => newIDs.map (fun p => (p.1, rPut p.2 .revision updatedRevision))
        | some partitionVal =>
          let replicas := spec.Replicas.getD 0
          let updatedReplicas : Int :=
            ((ownedIDs.filter (fun p =>
              !(rGet p.2 .replaceOriginTargetID).isSome
                && rContains p.2 .revision updatedRevision)).length : Int)
          newIDs.map (fun p =>
            if p.1 < replicas - partitionVal - updatedReplicas then
              (p.1, rPut p.2 .revision updatedRevision)
            else
              (p.1, rPut p.2 .revision currentRevision))

/-! ### Instance-ID allocator (`resource_context.go`) -/

/-- One iteration of the `getUnRecordTargetIDs` loop over a target. -/
def unrecStep (existingIDs : List (Int × ContextDetail)) (defaultRevision : String)
    (acc : List (Int × String)) (obj : TargetObj) : List (Int × String) :=
  if obj.hasDeletionTimestamp then acc
  else if targetHasLabel obj replacePairOriginLabelKey then acc
  else
    match GetInstanceID obj with
    | none => acc
    | some id =>
      if (mapFind existingIDs id).isSome then acc
      else mapInsert acc id (GetTargetRevision obj defaultRevision)

/-- Embedding of `getUnRecordTargetIDs`: IDs used by live, non-replace-successor
targets that are not recorded in `existingIDs`, mapped to the target revision. -/
def getUnRecordTargetIDs (existingIDs : List (Int × ContextDetail))
    (objs : List TargetObj) (defaultRevision : String) : List (Int × String) :=
  objs.foldl (unrecStep existingIDs defaultRevision) []

def adoptedDetail (id : Int) (revision ownerName : String) : ContextDetail :=
  { ID := id
    Data := [(ctxKeyStr .owner, ownerName), (ctxKeyStr .revision, revision),
             (ctxKeyStr .justCreate, "true")] }

/-- Embedding of `addUnrecordedIDs`. -/
def addUnrecordedIDs (ownedIDs : List (Int × ContextDetail))
    (unRecordIDs : List (Int × String)) (ownerName : String) :
    List (Int × ContextDetail) :=
  unRecordIDs.foldl
    (fun acc p => mapInsert acc p.1 (adoptedDetail p.1 p.2 ownerName)) ownedIDs

/-- The ID-scan loop of `allocateNewIDs`: starting at `start`, collect the next
`k` integers that are not keys of `existingIDs`. -/
def firstFree (existing : List Int) (k : Nat) (start : Int) : List Int :=
  if hk : k = 0 then []
  else if hs : start ∈ existing then firstFree existing k (start + 1)
  else start :: firstFree existing (k - 1) (start + 1)
termination_by k + (existing.filter (fun x => start ≤ x)).length
decreasing_by
  · have h1 := length_filter_ge_succ_lt existing start hs
    omega
  · have h1 := length_filter_ge_succ_le existing start
    omega

def newDetail (id : Int) (ownerName : String) : ContextDetail :=
  { ID := id
    Data := [(ctxKeyStr .owner, ownerName), (ctxKeyStr .justCreate, "true")] }

/-- Embedding of `allocateNewIDs`: fresh IDs scanned from 0 upward, skipping
keys of `existingIDs`, until `replicas - len(ownedIDs)` have been gathered. -/
def allocateNewIDs (ownedIDs existingIDs : List (Int × ContextDetail))
    (replicas : Int) (ownerName : String) : List (Int × ContextDetail) :=
  let k : Nat := (replicas - (ownedIDs.length : Int)).toNat
  (firstFree (mapKeys existingIDs) k 0).map (fun id => (id, newDetail id ownerName))

/-- Embedding of `doAllocateID`. -/
def doAllocateID (ownedIDs existingIDs : List (Int × ContextDetail))
    (unRecordIDs : List (Int × String)) (replicas : Int) (ownerName : String)
    (spec : XSetSpecM) (currentRevision updatedRevision : String) :
    List (Int × ContextDetail) :=
  let withAdopted := addUnrecordedIDs ownedIDs unRecordIDs ownerName
  let newIDs := allocateNewIDs withAdopted existingIDs replicas ownerName
  let stamped := DecideContextsRevisionBeforeCreate withAdopted newIDs spec
    currentRevision updatedRevision
  stamped.foldl (fun acc p => mapInsert acc p.1 p.2) withAdopted



theorem firstFree_length (existing : List Int) (k : Nat) (start : Int) :
    (firstFree existing k start).length = k := by
  induction k, start using firstFree.induct existing with
  | case1 start => rw [firstFree]; simp
  | case2 k start hk hs ih => rw [firstFree]; simp [hk, hs, ih]
  | case3 k start hk hs ih =>
    rw [firstFree]
    simp [hk, hs, ih]
    omega

theorem firstFree_mem (existing : List Int) (k : Nat) (start : Int) :
    ∀ x ∈ firstFree existing k start, start ≤ x ∧ x ∉ existing := by
  induction k, start using firstFree.induct existing with
  | case1 start => rw [firstFree]; simp
  | case2 k start hk hs ih =>
    rw [firstFree]
    simp only [hk, hs, dite_false, dite_true, if_pos, if_neg]
    intro x hx
    have := ih x hx
    exact ⟨by omega, this.2⟩
  | case3 k start hk hs ih =>
    rw [firstFree]
    simp only [hk, hs, dite_false]
    intro x hx
    rcases List.mem_cons.mp hx with h | h
    · exact ⟨le_of_eq h.symm, h ▸ hs⟩
    · have := ih x h
      exact ⟨by omega, this.2⟩

theorem firstFree_chain (existing : List Int) (k : Nat) (start : Int) :
    List.Chain' (· < ·) (firstFree existing k start) := by
  induction k, start using firstFree.induct existing with
  | case1 start => rw [firstFree]; simp
  | case2 k start hk hs ih => rw [firstFree]; simpa [hk, hs] using ih
  | case3 k start hk hs ih =>
    rw [firstFree]
    simp only [hk, hs, dite_false]
    apply List.Chain'.cons'
    · exact ih
    · intro y hy
      have hmem : y ∈ firstFree existing (k - 1) (start + 1) := by
        exact List.mem_of_mem_head? hy
      have := firstFree_mem existing (k - 1) (start + 1) y hmem
      omega

theorem firstFree_closed (existing : List Int) (k : Nat) (start : Int) :
    ∀ x ∈ firstFree existing k start, ∀ m : Int, start ≤ m → m < x → m ∉ existing →
      m ∈ firstFree existing k start := by
  induction k, start using firstFree.induct existing with
  | case1 start => rw [firstFree]; simp
  | case2 k start hk hs ih =>
    rw [firstFree]
    simp only [hk, hs, dite_false, dite_true]
    intro x hx m hm hmx hmex
    have hms : m ≠ start := fun hh => hmex (hh ▸ hs)
    exact ih x hx m (by omega) hmx hmex
  | case3 k start hk hs ih =>
    rw [firstFree]
    simp only [hk, hs, dite_false]
    intro x hx m hm hmx hmex
    rcases List.mem_cons.mp hx with h | h
    · exfalso
      omega
    · by_cases hms : m = start
      · exact hms ▸ List.mem_cons_self start _
      · exact List.mem_cons_of_mem start (ih x h m (by omega) hmx hmex)


theorem mapFind_foldl_insert {β : Type} (g : Int × β → ContextDetail)
    (l : List (Int × β)) (acc : List (Int × ContextDetail)) (x : Int)
    (hnd : (l.map Prod.fst).Nodup) :
    mapFind (l.foldl (fun a p => mapInsert a p.1 (g p)) acc) x =
      match mapFind l x with
      | some v => some (g (x, v))
      | none => mapFind acc x := by
  induction l generalizing acc with
  | nil => simp [mapFind]
  | cons p t ih =>
    simp only [List.map_cons, List.nodup_cons] at hnd
    rw [List.foldl_cons]
    by_cases hx : p.1 = x
    · have hxt : mapFind t x = none := by
        rw [mapFind_eq_none]
        exact fun hmem => hnd.1 (hx ▸ hmem)
      rw [ih _ hnd.2]
      simp only [hxt, mapFind, hx, if_pos rfl]
      rw [mapFind_mapInsert]
      simp only [if_pos hx.symm]
      have hp : p = (x, p.2) := by
        rw [← hx]
      rw [hp]
      simp
    · rw [ih _ hnd.2]
      cases hf : mapFind t x with
      | some v => simp [mapFind, hx, hf]
      | none =>
        simp only [mapFind, hx, if_neg hx, hf]
        rw [mapFind_mapInsert, if_neg (fun hh : x = p.1 => hx hh.symm)]
        simp

theorem mem_mapKeys_foldl_insert {β : Type} (g : Int × β → ContextDetail)
    (l : List (Int × β)) (acc : List (Int × ContextDetail)) (x : Int) :
    x ∈ mapKeys (l.foldl (fun a p => mapInsert a p.1 (g p)) acc) ↔
      x ∈ mapKeys acc ∨ x ∈ l.map Prod.fst := by
  induction l generalizing acc with
  | nil => simp
  | cons p t ih =>
    rw [List.foldl_cons, ih, mem_mapKeys_mapInsert]
    simp only [List.map_cons, List.mem_cons]
    tauto

theorem length_foldl_insert {β : Type} (g : Int × β → ContextDetail)
    (l : List (Int × β)) (acc : List (Int × ContextDetail))
    (hd : ∀ k ∈ l.map Prod.fst, k ∉ mapKeys acc)
    (hnd : (l.map Prod.fst).Nodup) :
    (l.foldl (fun a p => mapInsert a p.1 (g p)) acc).length
      = acc.length + l.length := by
  induction l generalizing acc with
  | nil => simp
  | cons p t ih =>
    simp only [List.map_cons, List.nodup_cons] at hnd
    rw [List.foldl_cons]
    have hnew : p.1 ∉ mapKeys acc := hd p.1 (by simp)
    have hlen := length_mapInsert_new acc p.1 (g p) hnew
    have hd2 : ∀ k ∈ t.map Prod.fst, k ∉ mapKeys (mapInsert acc p.1 (g p)) := by
      intro k hk
      rw [mem_mapKeys_mapInsert]
      push_neg
      refine ⟨hd k (by simp [hk]), ?_⟩
      exact fun hh => hnd.1 (hh ▸ hk)
    rw [ih _ hd2 hnd.2, hlen]
    simp only [List.length_cons]
    omega

theorem mapKeys_map_of_fst {α : Type} (l : List (Int × α)) (h : Int × α → Int × α)
    (hf : ∀ p, (h p).1 = p.1) : mapKeys (l.map h) = mapKeys l := by
  simp only [mapKeys, List.map_map]
  apply List.map_congr_left
  intro a _
  exact hf a

theorem mapKeys_decideBefore (ownedIDs newIDs : List (Int × ContextDetail))
    (spec : XSetSpecM) (currentRevision updatedRevision : String) :
    mapKeys (DecideContextsRevisionBeforeCreate ownedIDs newIDs spec
      currentRevision updatedRevision) = mapKeys newIDs := by
  unfold DecideContextsRevisionBeforeCreate
  cases hru : spec.RollingUpdate with
  | none => exact mapKeys_map_of_fst _ _ (fun p => rfl)
  | some ru =>
    dsimp only
    by_cases hbl : ru.ByLabel
    · simp only [hbl, if_true]
      exact mapKeys_map_of_fst _ _ (fun p => rfl)
    · have hbl' : ru.ByLabel = false := by simpa using hbl
      rw [hbl']
      simp only [Bool.false_eq_true, if_false]
      cases hbp : ru.ByPartition with
      | none => exact mapKeys_map_of_fst _ _ (fun p => rfl)
      | some bp =>
        dsimp only
        cases hp : bp.Partition with
        | none => exact mapKeys_map_of_fst _ _ (fun p => rfl)
        | some partitionVal =>
          dsimp only
          apply mapKeys_map_of_fst
          intro p
          split <;> rfl

theorem firstFree_zero (existing : List Int) (start : Int) :
    firstFree existing 0 start = [] := by
  rw [firstFree]
  simp

theorem mapKeys_allocateNewIDs (ownedIDs existingIDs : List (Int × ContextDetail))
    (replicas : Int) (ownerName : String) :
    mapKeys (allocateNewIDs ownedIDs existingIDs replicas ownerName)
      = firstFree (mapKeys existingIDs) ((replicas - (ownedIDs.length : Int)).toNat) 0 := by
  unfold allocateNewIDs
  simp only [mapKeys, List.map_map]
  have hcomp : (Prod.fst ∘ fun id => ((id, newDetail id ownerName) : Int × ContextDetail))
      = id := by
    funext a
    rfl
  rw [hcomp, List.map_id]

theorem addUnrecordedIDs_keys (ownedIDs : List (Int × ContextDetail))
    (unRecordIDs : List (Int × String)) (ownerName : String) (x : Int) :
    x ∈ mapKeys (addUnrecordedIDs ownedIDs unRecordIDs ownerName) ↔
      x ∈ mapKeys ownedIDs ∨ x ∈ unRecordIDs.map Prod.fst := by
  unfold addUnrecordedIDs
  exact mem_mapKeys_foldl_insert (fun p => adoptedDetail p.1 p.2 ownerName) _ _ x

theorem addUnrecordedIDs_length (ownedIDs : List (Int × ContextDetail))
    (unRecordIDs : List (Int × String)) (ownerName : String)
    (hd : ∀ k ∈ unRecordIDs.map Prod.fst, k ∉ mapKeys ownedIDs)
    (hnd : (unRecordIDs.map Prod.fst).Nodup) :
    (addUnrecordedIDs ownedIDs unRecordIDs ownerName).length
      = ownedIDs.length + unRecordIDs.length := by
  unfold addUnrecordedIDs
  exact length_foldl_insert (fun p => adoptedDetail p.1 p.2 ownerName) _ _ hd hnd

/-- C1: in `doAllocateID` (the non-early-exit path of AllocateID), the set of ID
keys added to `ownedIDs` equals the unrecorded IDs unioned with the fresh IDs,
where the fresh IDs are exactly the `max(0, replicas - |ownedIDs after
adoption|)` smallest non-negative integers absent from `existingIDs` (strictly
increasing, disjoint from `existingIDs`, downward closed among non-members),
and no fresh ID is produced when adoption already brings `ownedIDs` to
`replicas` or beyond. -/
theorem C1_allocate_added_ids
    (ownedIDs existingIDs : List (Int × ContextDetail))
    (unRecordIDs : List (Int × String)) (replicas : Int) (ownerName : String)
    (spec : XSetSpecM) (currentRevision updatedRevision : String)
    (hOwnedSub : ∀ k ∈ mapKeys ownedIDs, k ∈ mapKeys existingIDs)
    (hUnDisj : ∀ k ∈ unRecordIDs.map Prod.fst, k ∉ mapKeys existingIDs)
    (hUnNd : (unRecordIDs.map Prod.fst).Nodup) :
    (∀ x : Int,
        (x ∈ mapKeys (doAllocateID ownedIDs existingIDs unRecordIDs replicas
            ownerName spec currentRevision updatedRevision)
          ∧ x ∉ mapKeys ownedIDs)
        ↔ (x ∈ unRecordIDs.map Prod.fst ∨
            x ∈ firstFree (mapKeys existingIDs)
              ((replicas - (ownedIDs.length : Int) - (unRecordIDs.length : Int)).toNat) 0))
    ∧ (firstFree (mapKeys existingIDs)
        ((replicas - (ownedIDs.length : Int) - (unRecordIDs.length : Int)).toNat) 0).length
      = (replicas - (ownedIDs.length : Int) - (unRecordIDs.length : Int)).toNat
    ∧ List.Chain' (· < ·) (firstFree (mapKeys existingIDs)
        ((replicas - (ownedIDs.length : Int) - (unRecordIDs.length : Int)).toNat) 0)
    ∧ (∀ x ∈ firstFree (mapKeys existingIDs)
          ((replicas - (ownedIDs.length : Int) - (unRecordIDs.length : Int)).toNat) 0,
        0 ≤ x ∧ x ∉ mapKeys existingIDs)
    ∧ (∀ x ∈ firstFree (mapKeys existingIDs)
          ((replicas - (ownedIDs.length : Int) - (unRecordIDs.length : Int)).toNat) 0,
        ∀ m : Int, 0 ≤ m → m < x → m ∉ mapKeys existingIDs →
          m ∈ firstFree (mapKeys existingIDs)
            ((replicas - (ownedIDs.length : Int) - (unRecordIDs.length : Int)).toNat) 0)
    ∧ (replicas ≤ (ownedIDs.length : Int) + (unRecordIDs.length : Int) →
        firstFree (mapKeys existingIDs)
          ((replicas - (ownedIDs.length : Int) - (unRecordIDs.length : Int)).toNat) 0 = []) := by
  have hdisj : ∀ k ∈ unRecordIDs.map Prod.fst, k ∉ mapKeys ownedIDs :=
    fun k hk hmem => hUnDisj k hk (hOwnedSub k hmem)
  have hAlen := addUnrecordedIDs_length ownedIDs unRecordIDs ownerName hdisj hUnNd
  have hcnt : ((replicas -
      ((addUnrecordedIDs ownedIDs unRecordIDs ownerName).length : Int)).toNat)
      = (replicas - (ownedIDs.length : Int) - (unRecordIDs.length : Int)).toNat := by
    rw [hAlen]
    congr 1
    push_cast
    ring
  refine ⟨?_, firstFree_length _ _ _, firstFree_chain _ _ _, ?_, ?_, ?_⟩
  · intro x
    have hResKeys : x ∈ mapKeys (doAllocateID ownedIDs existingIDs unRecordIDs replicas
        ownerName spec currentRevision updatedRevision) ↔
        x ∈ mapKeys (addUnrecordedIDs ownedIDs unRecordIDs ownerName) ∨
        x ∈ mapKeys (DecideContextsRevisionBeforeCreate
          (addUnrecordedIDs ownedIDs unRecordIDs ownerName)
          (allocateNewIDs (addUnrecordedIDs ownedIDs unRecordIDs ownerName)
            existingIDs replicas ownerName) spec currentRevision updatedRevision) := by
      unfold doAllocateID
      exact mem_mapKeys_foldl_insert Prod.snd _ _ x
    rw [hResKeys, addUnrecordedIDs_keys, mapKeys_decideBefore, mapKeys_allocateNewIDs, hcnt]
    constructor
    · rintro ⟨(h | h) | h, hnot⟩
      · exact absurd h hnot
      · exact Or.inl h
      · exact Or.inr h
    · rintro (h | h)
      · exact ⟨Or.inl (Or.inr h), fun hmem => hUnDisj x h (hOwnedSub x hmem)⟩
      · have hx := firstFree_mem _ _ _ x h
        exact ⟨Or.inr h, fun hmem => hx.2 (hOwnedSub x hmem)⟩
  · intro x hx
    exact firstFree_mem _ _ _ x hx
  · intro x hx m hm
    exact firstFree_closed _ _ _ x hx m hm
  · intro hle
    have h0 : (replicas - (ownedIDs.length : Int) - (unRecordIDs.length : Int)).toNat = 0 := by
      omega
    rw [h0]
    exact firstFree_zero _ 0

/-- C1 witness: `owned = existing = {0}`, `unRecorded = {3}`, `replicas = 3`;
the hypotheses hold at this input and the added-ID characterization applies,
instantiated at candidate ID 1. -/
theorem C1_allocate_added_ids_witness :
    (((1 : Int) ∈ mapKeys (doAllocateID [(0, ⟨0, [("Owner", "foo")]⟩)]
        [(0, ⟨0, [("Owner", "foo")]⟩)] [(3, "rv")] 3 "foo"
        ⟨some 3, none, ""⟩ "cur" "upd")
      ∧ (1 : Int) ∉ mapKeys [((0 : Int), (⟨0, [("Owner", "foo")]⟩ : ContextDetail))])
    ↔ ((1 : Int) ∈ ([((3 : Int), "rv")]).map Prod.fst ∨
        (1 : Int) ∈ firstFree (mapKeys [((0 : Int), (⟨0, [("Owner", "foo")]⟩ : ContextDetail))])
          (((3 : Int) - (([((0 : Int), (⟨0, [("Owner", "foo")]⟩ : ContextDetail))].length : Nat) : Int)
            - (([((3 : Int), "rv")].length : Nat) : Int)).toNat) 0)) :=
  (C1_allocate_added_ids [(0, ⟨0, [("Owner", "foo")]⟩)]
    [(0, ⟨0, [("Owner", "foo")]⟩)] [(3, "rv")] 3 "foo"
    ⟨some 3, none, ""⟩ "cur" "upd" (by decide) (by decide) (by decide)).1 1

/-- C6: on an unrecoverable create error (Forbidden or Invalid) with the detail
marked `JustCreate="true"` or `RecreateUpdate="true"`, the revision is rewritten
to the updated revision name, the decoration-revision key is dropped, and the
function signals a context write; on a nil or recoverable error the
`JustCreate`/`RecreateUpdate` marks are cleared and a write is signalled. -/
theorem C6_decide_after_create (d : ContextDetail) (updName : String)
    (err : Option ApiError) :
    (UnrecoverableCreateError err = true ↔
      (err = some .forbidden ∨ err = some .invalid))
    ∧ (UnrecoverableCreateError err = true →
        (rContains d .justCreate "true" || rContains d .recreateUpdate "true") = true →
        (DecideContextRevisionAfterCreate d updName err).2 = true
        ∧ rGet (DecideContextRevisionAfterCreate d updName err).1 .revision = some updName
        ∧ rGet (DecideContextRevisionAfterCreate d updName err).1 .targetDecorationRevision
            = none)
    ∧ (UnrecoverableCreateError err = false →
        (DecideContextRevisionAfterCreate d updName err).2 = true
        ∧ rGet (DecideContextRevisionAfterCreate d updName err).1 .justCreate = none
        ∧ rGet (DecideContextRevisionAfterCreate d updName err).1 .recreateUpdate = none) := by
  refine ⟨?_, ?_, ?_⟩
  · cases err with
    | none => simp [UnrecoverableCreateError]
    | some e => cases e <;> simp [UnrecoverableCreateError]
  · intro herr hmark
    unfold DecideContextRevisionAfterCreate
    rw [herr]
    simp only [if_true, hmark]
    refine ⟨by trivial, ?_, ?_⟩
    · unfold rGet rRemove rPut
      rw [getData_removeData_other _ _ _ (by decide), getData_putData_self]
    · unfold rGet rRemove rPut
      rw [getData_removeData_self]
  · intro herr
    unfold DecideContextRevisionAfterCreate
    rw [herr]
    simp only [Bool.false_eq_true, if_false]
    refine ⟨by trivial, ?_, ?_⟩
    · unfold rGet rRemove
      rw [getData_removeData_other _ _ _ (by decide), getData_removeData_self]
    · unfold rGet rRemove
      rw [getData_removeData_self]

/-- C6 witness: a just-created detail hit by a Forbidden create error is pivoted
to the updated revision. -/
theorem C6_decide_after_create_witness :
    (DecideContextRevisionAfterCreate
        ⟨2, [("Owner", "foo"), ("TargetJustCreate", "true")]⟩ "newRv"
        (some .forbidden)).2 = true
    ∧ rGet (DecideContextRevisionAfterCreate
        ⟨2, [("Owner", "foo"), ("TargetJustCreate", "true")]⟩ "newRv"
        (some .forbidden)).1 .revision = some "newRv"
    ∧ rGet (DecideContextRevisionAfterCreate
        ⟨2, [("Owner", "foo"), ("TargetJustCreate", "true")]⟩ "newRv"
        (some .forbidden)).1 .targetDecorationRevision = none :=
  (C6_decide_after_create ⟨2, [("Owner", "foo"), ("TargetJustCreate", "true")]⟩
    "newRv" (some .forbidden)).2.1 (by decide) (by decide)

/-- C10: a detail carrying neither `JustCreate="true"` nor
`RecreateUpdate="true"` (the delete-and-recreate case) is left completely
unchanged by an unrecoverable create error, and no context write is
signalled. -/
theorem C10_decide_after_create_frame (d : ContextDetail) (updName : String)
    (err : Option ApiError)
    (herr : UnrecoverableCreateError err = true)
    (hjc : rContains d .justCreate "true" = false)
    (hru : rContains d .recreateUpdate "true" = false) :
    DecideContextRevisionAfterCreate d updName err = (d, false) := by
  unfold DecideContextRevisionAfterCreate
  rw [herr]
  simp [hjc, hru]

/-- C10 witness: an owned delete-and-recreate detail is untouched by an Invalid
create error. -/
theorem C10_decide_after_create_frame_witness :
    DecideContextRevisionAfterCreate
        ⟨5, [("Owner", "foo"), ("Revision", "oldRv")]⟩ "newRv" (some .invalid)
      = (⟨5, [("Owner", "foo"), ("Revision", "oldRv")]⟩, false) :=
  C10_decide_after_create_frame ⟨5, [("Owner", "foo"), ("Revision", "oldRv")]⟩
    "newRv" (some .invalid) (by decide) (by decide) (by decide)

/-- C9 counterexample: `GetInstanceID` succeeds on the label value "-5" and
returns the negative ID -5, refuting the claim that a successfully returned
instance ID is always non-negative. -/
theorem C9_instance_id_counterexample :
    GetInstanceID ⟨some [("instance-id", "-5")], false⟩ = some (-5)
    ∧ (-5 : Int) < 0 := by
  constructor
  · rfl
  · decide

/-- C9 (amended): `GetInstanceID` returns successfully exactly when the target
has a label map, the instance-id label is present, and its value parses as a
(possibly negative) decimal int32; the returned ID is the parsed value. -/
theorem C9_instance_id_success_iff (t : TargetObj) (id : Int) :
    GetInstanceID t = some id ↔
      ∃ ls, t.labels = some ls ∧
        ∃ v, getData ls instanceIdLabelKey = some v ∧ parseInt32 v = some id := by
  unfold GetInstanceID
  cases t.labels with
  | none => simp
  | some ls =>
    cases hv : getData ls instanceIdLabelKey with
    | none => simp [hv]
    | some v => simp [hv]

/-- C2: evidence for the partition-math code bug. On the S7 scenario (owned
IDs 0,1 at the old revision, new IDs 2,3,4, replicas 5, byPartition partition
4) the code stamps every new ID with the current revision, because the loop
variable it compares against the threshold is the map key (the ID value 2, 3
or 4, each at least (5-4)-0 = 1), so zero owned details end up at the updated
revision instead of the expected max(0, replicas - partition) = 1, and ID 4
does not receive the updated revision as the spec and the repository's own
test expect. -/
theorem C2_partition_revision_code_eval :
    ((DecideContextsRevisionBeforeCreate
        [(0, ⟨0, [("Owner", "foo"), ("Revision", "oldRevision")]⟩),
         (1, ⟨1, [("Owner", "foo"), ("Revision", "oldRevision")]⟩)]
        [(2, ⟨2, [("Owner", "foo")]⟩), (3, ⟨3, [("Owner", "foo")]⟩),
         (4, ⟨4, [("Owner", "foo")]⟩)]
        ⟨some 5, some ⟨false, some ⟨some 4⟩⟩, ""⟩ "oldRevision" "newRevision").map
          (fun p => (p.1, rGet p.2 .revision))
      = [(2, some "oldRevision"), (3, some "oldRevision"), (4, some "oldRevision")])
    ∧ ((DecideContextsRevisionBeforeCreate
        [(0, ⟨0, [("Owner", "foo"), ("Revision", "oldRevision")]⟩),
         (1, ⟨1, [("Owner", "foo"), ("Revision", "oldRevision")]⟩)]
        [(2, ⟨2, [("Owner", "foo")]⟩), (3, ⟨3, [("Owner", "foo")]⟩),
         (4, ⟨4, [("Owner", "foo")]⟩)]
        ⟨some 5, some ⟨false, some ⟨some 4⟩⟩, ""⟩ "oldRevision" "newRevision").filter
          (fun p => rContains p.2 .revision "newRevision")).length = 0
    ∧ (0 : Int) ≠ max 0 (5 - 4) := by
  refine ⟨by decide, by decide, by decide⟩

/-- The condition under which a target contributes an unrecorded ID. -/
def contributesUnrecorded (existingIDs : List (Int × ContextDetail))
    (obj : TargetObj) (id : Int) : Prop :=
  obj.hasDeletionTimestamp = false
  ∧ targetHasLabel obj replacePairOriginLabelKey = false
  ∧ GetInstanceID obj = some id
  ∧ mapFind existingIDs id = none

theorem unrecStep_deleted (existingIDs : List (Int × ContextDetail))
    (defaultRevision : String) (acc : List (Int × String)) (obj : TargetObj)
    (h : obj.hasDeletionTimestamp = true) :
    unrecStep existingIDs defaultRevision acc obj = acc := by
  unfold unrecStep
  simp [h]

theorem unrecStep_replaceNew (existingIDs : List (Int × ContextDetail))
    (defaultRevision : String) (acc : List (Int × String)) (obj : TargetObj)
    (h : targetHasLabel obj replacePairOriginLabelKey = true) :
    unrecStep existingIDs defaultRevision acc obj = acc := by
  unfold unrecStep
  by_cases hdel : obj.hasDeletionTimestamp <;> simp [hdel, h]

theorem unrecStep_noID (existingIDs : List (Int × ContextDetail))
    (defaultRevision : String) (acc : List (Int × String)) (obj : TargetObj)
    (hdel : obj.hasDeletionTimestamp = false)
    (hlab : targetHasLabel obj replacePairOriginLabelKey = false)
    (hgi : GetInstanceID obj = none) :
    unrecStep existingIDs defaultRevision acc obj = acc := by
  unfold unrecStep
  simp [hdel, hlab, hgi]

theorem unrecStep_recorded (existingIDs : List (Int × ContextDetail))
    (defaultRevision : String) (acc : List (Int × String)) (obj : TargetObj)
    (id0 : Int) (hdel : obj.hasDeletionTimestamp = false)
    (hlab : targetHasLabel obj replacePairOriginLabelKey = false)
    (hgi : GetInstanceID obj = some id0)
    (hrec : (mapFind existingIDs id0).isSome = true) :
    unrecStep existingIDs defaultRevision acc obj = acc := by
  unfold unrecStep
  simp [hdel, hlab, hgi, hrec]

theorem unrecStep_adds (existingIDs : List (Int × ContextDetail))
    (defaultRevision : String) (acc : List (Int × String)) (obj : TargetObj)
    (id0 : Int) (hdel : obj.hasDeletionTimestamp = false)
    (hlab : targetHasLabel obj replacePairOriginLabelKey = false)
    (hgi : GetInstanceID obj = some id0)
    (hrec : mapFind existingIDs id0 = none) :
    unrecStep existingIDs defaultRevision acc obj
      = mapInsert acc id0 (GetTargetRevision obj defaultRevision) := by
  unfold unrecStep
  simp [hdel, hlab, hgi, hrec]

theorem exists_contrib_append_single (existingIDs : List (Int × ContextDetail))
    (l : List TargetObj) (o : TargetObj) (id : Int)
    (hno : ¬ contributesUnrecorded existingIDs o id) :
    (∃ o' ∈ l ++ [o], contributesUnrecorded existingIDs o' id)
      ↔ (∃ o' ∈ l, contributesUnrecorded existingIDs o' id) := by
  constructor
  · rintro ⟨o', ho', hc⟩
    rcases List.mem_append.mp ho' with h | h
    · exact ⟨o', h, hc⟩
    · simp at h
      exact absurd (h ▸ hc) hno
  · rintro ⟨o', ho', hc⟩
    exact ⟨o', List.mem_append_left _ ho', hc⟩

theorem getUnRecord_find_spec (existingIDs : List (Int × ContextDetail))
    (objs : List TargetObj) (defaultRevision : String) (id : Int) :
    (mapFind (getUnRecordTargetIDs existingIDs objs defaultRevision) id ≠ none
      ↔ ∃ o ∈ objs, contributesUnrecorded existingIDs o id)
    ∧ (∀ rev, mapFind (getUnRecordTargetIDs existingIDs objs defaultRevision) id = some rev →
        ∃ o ∈ objs, contributesUnrecorded existingIDs o id
          ∧ rev = GetTargetRevision o defaultRevision) := by
  unfold getUnRecordTargetIDs
  induction objs using List.reverseRecOn with
  | nil => simp [mapFind]
  | append_singleton l o ih =>
    rw [List.foldl_append]
    simp only [List.foldl_cons, List.foldl_nil]
    have hskip : ∀ hno : (∀ i : Int, ¬ contributesUnrecorded existingIDs o i),
        unrecStep existingIDs defaultRevision
            (List.foldl (unrecStep existingIDs defaultRevision) [] l) o
          = List.foldl (unrecStep existingIDs defaultRevision) [] l →
        (mapFind (unrecStep existingIDs defaultRevision
            (List.foldl (unrecStep existingIDs defaultRevision) [] l) o) id ≠ none
          ↔ ∃ o' ∈ l ++ [o], contributesUnrecorded existingIDs o' id)
        ∧ (∀ rev, mapFind (unrecStep existingIDs defaultRevision
              (List.foldl (unrecStep existingIDs defaultRevision) [] l) o) id = some rev →
            ∃ o' ∈ l ++ [o], contributesUnrecorded existingIDs o' id
              ∧ rev = GetTargetRevision o' defaultRevision) := by
      intro hno heq
      rw [heq]
      constructor
      · rw [exists_contrib_append_single existingIDs l o id (hno id)]
        exact ih.1
      · intro rev hrev
        obtain ⟨o', ho', hc, hr⟩ := ih.2 rev hrev
        exact ⟨o', List.mem_append_left _ ho', hc, hr⟩
    by_cases hdel : o.hasDeletionTimestamp
    · refine hskip ?_ (unrecStep_deleted _ _ _ _ hdel)
      intro i hc
      rw [hc.1] at hdel
      exact Bool.false_ne_true hdel
    · have hdel' : o.hasDeletionTimestamp = false := by simpa using hdel
      by_cases hlab : targetHasLabel o replacePairOriginLabelKey
      · refine hskip ?_ (unrecStep_replaceNew _ _ _ _ hlab)
        intro i hc
        rw [hc.2.1] at hlab
        exact Bool.false_ne_true hlab
      · have hlab' : targetHasLabel o replacePairOriginLabelKey = false := by
          simpa using hlab
        cases hgi : GetInstanceID o with
        | none =>
          refine hskip ?_ (unrecStep_noID _ _ _ _ hdel' hlab' hgi)
          intro i hc
          rw [hc.2.2.1] at hgi
          exact Option.noConfusion hgi
        | some id0 =>
          by_cases hrec : (mapFind existingIDs id0).isSome
          · refine hskip ?_ (unrecStep_recorded _ _ _ _ id0 hdel' hlab' hgi hrec)
            intro i hc
            have hgi2 := hc.2.2.1
            rw [hgi] at hgi2
            obtain rfl : id0 = i := Option.some.inj hgi2
            rw [hc.2.2.2] at hrec
            simp at hrec
          · have hrec' : mapFind existingIDs id0 = none := by
              cases hmf : mapFind existingIDs id0 with
              | none => rfl
              | some v => rw [hmf] at hrec; simp at hrec
            rw [unrecStep_adds _ _ _ _ id0 hdel' hlab' hgi hrec', mapFind_mapInsert]
            by_cases hid : id = id0
            · have hco : contributesUnrecorded existingIDs o id :=
                ⟨hdel', hlab', hid ▸ hgi, hid ▸ hrec'⟩
              simp only [hid, if_pos rfl]
              constructor
              · constructor
                · intro _
                  exact ⟨o, List.mem_append_right _ (by simp), hid ▸ hco⟩
                · intro _
                  simp
              · intro rev hrev
                exact ⟨o, List.mem_append_right _ (by simp), hid ▸ hco,
                  (Option.some.inj hrev).symm⟩
            · rw [if_neg hid]
              have hno : ¬ contributesUnrecorded existingIDs o id := by
                intro hc
                have hgi2 := hc.2.2.1
                rw [hgi] at hgi2
                exact hid (Option.some.inj hgi2).symm
              constructor
              · rw [exists_contrib_append_single existingIDs l o id hno]
                exact ih.1
              · intro rev hrev
                obtain ⟨o', ho', hc, hr⟩ := ih.2 rev hrev
                exact ⟨o', List.mem_append_left _ ho', hc, hr⟩

theorem getUnRecord_keys_nodup (existingIDs : List (Int × ContextDetail))
    (objs : List TargetObj) (defaultRevision : String) :
    (mapKeys (getUnRecordTargetIDs existingIDs objs defaultRevision)).Nodup := by
  unfold getUnRecordTargetIDs
  induction objs using List.reverseRecOn with
  | nil => simp [mapKeys]
  | append_singleton l o ih =>
    rw [List.foldl_append]
    simp only [List.foldl_cons, List.foldl_nil]
    by_cases hdel : o.hasDeletionTimestamp
    · rw [unrecStep_deleted _ _ _ _ hdel]
      exact ih
    · have hdel' : o.hasDeletionTimestamp = false := by simpa using hdel
      by_cases hlab : targetHasLabel o replacePairOriginLabelKey
      · rw [unrecStep_replaceNew _ _ _ _ hlab]
        exact ih
      · have hlab' : targetHasLabel o replacePairOriginLabelKey = false := by
          simpa using hlab
        cases hgi : GetInstanceID o with
        | none =>
          rw [unrecStep_noID _ _ _ _ hdel' hlab' hgi]
          exact ih
        | some id0 =>
          by_cases hrec : (mapFind existingIDs id0).isSome
          · rw [unrecStep_recorded _ _ _ _ id0 hdel' hlab' hgi hrec]
            exact ih
          · have hrec' : mapFind existingIDs id0 = none := by
              cases hmf : mapFind existingIDs id0 with
              | none => rfl
              | some v => rw [hmf] at hrec; simp at hrec
            rw [unrecStep_adds _ _ _ _ id0 hdel' hlab' hgi hrec']
            exact mapKeys_mapInsert_nodup _ _ _ ih

/-- C7: a target contributes an unrecorded ID iff it is live (no deletion
timestamp), does not carry the replace-pair-origin label, its instance-id label
parses to an integer, and that integer is not a key of `existingIDs`; the
recorded revision comes from the contributing target (or the default), and
every unrecorded ID is adopted into `ownedIDs` as a detail whose Data is
exactly {Owner: parent name, Revision: recorded revision, JustCreate: "true"}. -/
theorem C7_unrecorded_ids_adoption
    (existingIDs : List (Int × ContextDetail)) (objs : List TargetObj)
    (defaultRevision ownerName : String) (ownedIDs : List (Int × ContextDetail)) :
    (∀ id : Int,
        id ∈ mapKeys (getUnRecordTargetIDs existingIDs objs defaultRevision)
        ↔ ∃ o ∈ objs, o.hasDeletionTimestamp = false
            ∧ targetHasLabel o replacePairOriginLabelKey = false
            ∧ GetInstanceID o = some id
            ∧ mapFind existingIDs id = none)
    ∧ (∀ id rev,
        mapFind (getUnRecordTargetIDs existingIDs objs defaultRevision) id = some rev →
        (∃ o ∈ objs, contributesUnrecorded existingIDs o id
            ∧ rev = GetTargetRevision o defaultRevision)
        ∧ mapFind (addUnrecordedIDs ownedIDs
              (getUnRecordTargetIDs existingIDs objs defaultRevision) ownerName) id
            = some (adoptedDetail id rev ownerName)
        ∧ (adoptedDetail id rev ownerName).ID = id
        ∧ rGet (adoptedDetail id rev ownerName) .owner = some ownerName
        ∧ rGet (adoptedDetail id rev ownerName) .revision = some rev
        ∧ rGet (adoptedDetail id rev ownerName) .justCreate = some "true"
        ∧ (∀ k : String, k ≠ ctxKeyStr .owner → k ≠ ctxKeyStr .revision →
            k ≠ ctxKeyStr .justCreate →
            getData (adoptedDetail id rev ownerName).Data k = none)) := by
  constructor
  · intro id
    have h1 := (getUnRecord_find_spec existingIDs objs defaultRevision id).1
    have h2 := mapFind_eq_none (getUnRecordTargetIDs existingIDs objs defaultRevision) id
    constructor
    · intro hmem
      exact h1.mp (fun hnone => (h2.mp hnone) hmem)
    · rintro ⟨o, ho, hc⟩
      by_contra hnot
      exact (h1.mpr ⟨o, ho, hc⟩) (h2.mpr hnot)
  · intro id rev hfind
    refine ⟨(getUnRecord_find_spec existingIDs objs defaultRevision id).2 rev hfind,
      ?_, rfl, ?_, ?_, ?_, ?_⟩
    · have hnd := getUnRecord_keys_nodup existingIDs objs defaultRevision
      have h := mapFind_foldl_insert (fun p => adoptedDetail p.1 p.2 ownerName)
        (getUnRecordTargetIDs existingIDs objs defaultRevision) ownedIDs id hnd
      unfold addUnrecordedIDs
      rw [h, hfind]
    · simp [rGet, adoptedDetail, getData, ctxKeyStr]
    · simp [rGet, adoptedDetail, getData, ctxKeyStr]
    · simp [rGet, adoptedDetail, getData, ctxKeyStr]
    · intro k h1 h2 h3
      have n1 : ("Owner" : String) ≠ k := fun hh => h1 hh.symm
      have n2 : ("Revision" : String) ≠ k := fun hh => h2 hh.symm
      have n3 : ("TargetJustCreate" : String) ≠ k := fun hh => h3 hh.symm
      simp [adoptedDetail, getData, ctxKeyStr, n1, n2, n3]

/-- C7 witness: a live target labelled instance-id "7" and revision "rv1" is
adopted with exactly Owner/Revision/JustCreate data. -/
theorem C7_unrecorded_ids_adoption_witness :
    mapFind (addUnrecordedIDs []
        (getUnRecordTargetIDs []
          [⟨some [("instance-id", "7"), ("revision", "rv1")], false⟩] "defRv") "foo") 7
      = some (adoptedDetail 7 "rv1" "foo")
    ∧ rGet (adoptedDetail 7 "rv1" "foo") .owner = some "foo"
    ∧ rGet (adoptedDetail 7 "rv1" "foo") .revision = some "rv1"
    ∧ rGet (adoptedDetail 7 "rv1" "foo") .justCreate = some "true" :=
  have h := (C7_unrecorded_ids_adoption []
    [⟨some [("instance-id", "7"), ("revision", "rv1")], false⟩] "defRv" "foo" []).2
    7 "rv1" (by decide)
  ⟨h.2.1, h.2.2.2.1, h.2.2.2.2.1, h.2.2.2.2.2.1⟩

/-! ### Persisting the ResourceContext (`doCreateTargetContext`, `doUpdateTargetContext`) -/

def detailLE (a b : ContextDetail) : Prop := a.ID ≤ b.ID

instance : DecidableRel detailLE := fun a b => Int.decLe a.ID b.ID

instance : IsTotal ContextDetail detailLE := ⟨fun a b => Int.le_total a.ID b.ID⟩

instance : IsTrans ContextDetail detailLE := ⟨fun _ _ _ hab hbc => le_trans hab hbc⟩

/-- Embedding of `sort.Sort(ContextDetailsByOrder(...))`: sort the details
ascending by ID.  With pairwise-distinct IDs every comparison sort yields the
same list, so the choice of insertion sort is immaterial. -/
def sortContextDetailsByOrder (l : List ContextDetail) : List ContextDetail :=
  List.insertionSort detailLE l

/-- Client calls the embedded controller code can issue. -/
inductive Action
  | getParent
  | updateParent
  | statusUpdate
  | getRC
  | createRC
  | updateRC
  | deleteRC
  | listTargets
  | updateTarget
  | deleteTarget
deriving DecidableEq, Repr

def Action.isMutating : Action → Bool
  | .getParent => false
  | .getRC => false
  | .listTargets => false
  | _ => true

/-- Embedding of `doCreateTargetContext`: returns the issued client calls and
the Contexts sequence written into the created ResourceContext. -/
def doCreateTargetContext (ownerIDs : List (Int × ContextDetail)) :
    List Action × List ContextDetail :=
  ([.createRC], sortContextDetailsByOrder (ownerIDs.map Prod.snd))

/-- The merged ID table built by `doUpdateTargetContext`: foreign-owner details
(kept only in pool mode) overlaid with the owned details, keyed by detail ID. -/
def mergedContextIDs (spec : XSetSpecM) (ownerName : String)
    (storedContexts : List ContextDetail) (ownedIDs : List (Int × ContextDetail)) :
    List (Int × ContextDetail) :=
  let foreign : List (Int × ContextDetail) :=
    if spec.ScaleStrategyContext ≠ "" then
      storedContexts.foldl
        (fun acc detail =>
          if containsData detail.Data (ctxKeyStr .owner) ownerName then acc
          else mapInsert acc detail.ID detail) []
    else []
  ownedIDs.foldl (fun acc p => mapInsert acc p.2.ID p.2) foreign

/-- Embedding of `doUpdateTargetContext`: returns the issued client calls and
the Contexts sequence written back (`none` when the ResourceContext is deleted
because the merged table is empty). -/
def doUpdateTargetContext (spec : XSetSpecM) (ownerName : String)
    (storedContexts : List ContextDetail) (ownedIDs : List (Int × ContextDetail)) :
    List Action × Option (List ContextDetail) :=
  let merged := mergedContextIDs spec ownerName storedContexts ownedIDs
  if merged.isEmpty then ([.deleteRC], none)
  else ([.updateRC], some (sortContextDetailsByOrder (merged.map Prod.snd)))

theorem sortContextDetails_strict_of_nodup (l : List ContextDetail)
    (h : (l.map (fun d => d.ID)).Nodup) :
    ((sortContextDetailsByOrder l).map (fun d => d.ID)).Pairwise (· < ·) := by
  have hs : List.Sorted detailLE (sortContextDetailsByOrder l) :=
    List.sorted_insertionSort detailLE l
  have hperm : List.Perm (sortContextDetailsByOrder l) l := List.perm_insertionSort detailLE l
  have hnd : ((sortContextDetailsByOrder l).map (fun d => d.ID)).Nodup :=
    (List.Perm.nodup_iff (List.Perm.map _ hperm)).mpr h
  have hle : ((sortContextDetailsByOrder l).map (fun d => d.ID)).Pairwise (· ≤ ·) := by
    rw [List.pairwise_map]
    exact hs
  have hne : ((sortContextDetailsByOrder l).map (fun d => d.ID)).Pairwise (· ≠ ·) := hnd
  exact (hle.and hne).imp (fun hab => lt_of_le_of_ne hab.1 hab.2)

theorem merged_wf_nodup (spec : XSetSpecM) (ownerName : String)
    (storedContexts : List ContextDetail) (ownedIDs : List (Int × ContextDetail)) :
    (∀ p ∈ mergedContextIDs spec ownerName storedContexts ownedIDs, p.1 = p.2.ID)
    ∧ (mapKeys (mergedContextIDs spec ownerName storedContexts ownedIDs)).Nodup := by
  unfold mergedContextIDs
  have hforeign : ∀ (init : List (Int × ContextDetail)),
      (∀ p ∈ init, p.1 = p.2.ID) → (mapKeys init).Nodup →
      ∀ (l : List ContextDetail),
      (∀ p ∈ l.foldl (fun acc detail =>
          if containsData detail.Data (ctxKeyStr .owner) ownerName then acc
          else mapInsert acc detail.ID detail) init, p.1 = p.2.ID)
      ∧ (mapKeys (l.foldl (fun acc detail =>
          if containsData detail.Data (ctxKeyStr .owner) ownerName then acc
          else mapInsert acc detail.ID detail) init)).Nodup := by
    intro init h1 h2 l
    induction l generalizing init with
    | nil => exact ⟨h1, h2⟩
    | cons d t ih =>
      rw [List.foldl_cons]
      by_cases hc : containsData d.Data (ctxKeyStr .owner) ownerName
      · rw [if_pos hc]
        exact ih init h1 h2
      · rw [if_neg hc]
        exact ih _ (wellFormed_mapInsert init d.ID d h1 rfl)
          (mapKeys_mapInsert_nodup init d.ID d h2)
  have howned : ∀ (init : List (Int × ContextDetail)),
      (∀ p ∈ init, p.1 = p.2.ID) → (mapKeys init).Nodup →
      ∀ (l : List (Int × ContextDetail)),
      (∀ p ∈ l.foldl (fun acc q => mapInsert acc q.2.ID q.2) init, p.1 = p.2.ID)
      ∧ (mapKeys (l.foldl (fun acc q => mapInsert acc q.2.ID q.2) init)).Nodup := by
    intro init h1 h2 l
    induction l generalizing init with
    | nil => exact ⟨h1, h2⟩
    | cons q t ih =>
      rw [List.foldl_cons]
      exact ih _ (wellFormed_mapInsert init q.2.ID q.2 h1 rfl)
        (mapKeys_mapInsert_nodup init q.2.ID q.2 h2)
  by_cases hpool : spec.ScaleStrategyContext ≠ ""
  · rw [if_pos hpool]
    obtain ⟨hf1, hf2⟩ := hforeign [] (by simp) (by simp [mapKeys]) storedContexts
    exact howned _ hf1 hf2 ownedIDs
  · rw [if_neg hpool]
    exact howned [] (by simp) (by simp [mapKeys]) ownedIDs

/-- C8: every Contexts sequence persisted by the allocator has strictly
increasing (hence pairwise-distinct, ascending-sorted) IDs, both on the create
path and on the update path; and when the merged table is empty the
ResourceContext is deleted instead of being written back empty. -/
theorem C8_persisted_sorted_unique (spec : XSetSpecM) (ownerName : String)
    (storedContexts : List ContextDetail)
    (ownedIDs ownerIDs : List (Int × ContextDetail))
    (hwf : ∀ p ∈ ownerIDs, p.1 = p.2.ID) (hnd : (mapKeys ownerIDs).Nodup) :
    (((doCreateTargetContext ownerIDs).2.map (fun d => d.ID)).Pairwise (· < ·)
      ∧ (doCreateTargetContext ownerIDs).1 = [Action.createRC])
    ∧ (∀ persisted,
        (doUpdateTargetContext spec ownerName storedContexts ownedIDs).2 = some persisted →
        (persisted.map (fun d => d.ID)).Pairwise (· < ·))
    ∧ (mergedContextIDs spec ownerName storedContexts ownedIDs = [] →
        doUpdateTargetContext spec ownerName storedContexts ownedIDs
          = ([Action.deleteRC], none)) := by
  refine ⟨⟨?_, rfl⟩, ?_, ?_⟩
  · unfold doCreateTargetContext
    apply sortContextDetails_strict_of_nodup
    have heq : (ownerIDs.map Prod.snd).map (fun d => d.ID) = mapKeys ownerIDs := by
      rw [List.map_map, mapKeys]
      apply List.map_congr_left
      intro p hp
      exact (hwf p hp).symm
    rw [heq]
    exact hnd
  · intro persisted hp
    unfold doUpdateTargetContext at hp
    by_cases hempty : (mergedContextIDs spec ownerName storedContexts ownedIDs).isEmpty
    · rw [if_pos hempty] at hp
      exact absurd hp (by simp)
    · rw [if_neg hempty] at hp
      obtain ⟨hm1, hm2⟩ := merged_wf_nodup spec ownerName storedContexts ownedIDs
      have heq : persisted = sortContextDetailsByOrder
          ((mergedContextIDs spec ownerName storedContexts ownedIDs).map Prod.snd) :=
        (Option.some.inj hp).symm
      rw [heq]
      apply sortContextDetails_strict_of_nodup
      have heq2 : ((mergedContextIDs spec ownerName storedContexts ownedIDs).map Prod.snd).map
          (fun d => d.ID)
          = mapKeys (mergedContextIDs spec ownerName storedContexts ownedIDs) := by
        rw [List.map_map, mapKeys]
        apply List.map_congr_left
        intro p hp'
        exact (hm1 p hp').symm
      rw [heq2]
      exact hm2
  · intro hmerged
    unfold doUpdateTargetContext
    rw [hmerged]
    simp

/-- C8 witness: an unsorted two-entry owned table is persisted sorted with
distinct IDs, and an empty merged table leads to deletion. -/
theorem C8_persisted_sorted_unique_witness :
    (((doCreateTargetContext [(1, ⟨1, [("Owner", "foo")]⟩), (0, ⟨0, [("Owner", "foo")]⟩)]).2.map
        (fun d => d.ID)).Pairwise (· < ·)
      ∧ (doCreateTargetContext
          [(1, ⟨1, [("Owner", "foo")]⟩), (0, ⟨0, [("Owner", "foo")]⟩)]).1
        = [Action.createRC])
    ∧ doUpdateTargetContext ⟨some 0, none, ""⟩ "foo" [⟨0, [("Owner", "foo")]⟩] []
        = ([Action.deleteRC], none) :=
  ⟨(C8_persisted_sorted_unique ⟨some 0, none, ""⟩ "foo" [⟨0, [("Owner", "foo")]⟩] []
      [(1, ⟨1, [("Owner", "foo")]⟩), (0, ⟨0, [("Owner", "foo")]⟩)]
      (by decide) (by decide)).1,
    (C8_persisted_sorted_unique ⟨some 0, none, ""⟩ "foo" [⟨0, [("Owner", "foo")]⟩] []
      [(1, ⟨1, [("Owner", "foo")]⟩), (0, ⟨0, [("Owner", "foo")]⟩)]
      (by decide) (by decide)).2.2 (by decide)⟩

/-! ### Full `AllocateID` pipeline -/

/-- The partition loop at the top of `AllocateID`: split the stored Contexts
into `(ownedIDs, existingIDs)`; foreign-owner details enter `existingIDs` only
when the cross-owner pool is enabled (`ScaleStrategy.Context` non-empty). -/
def collectOwnedExisting (contexts : List ContextDetail) (ownerName : String)
    (scaleStrategyContext : String) :
    List (Int × ContextDetail) × List (Int × ContextDetail) :=
  contexts.foldl
    (fun acc detail =>
      if containsData detail.Data (ctxKeyStr .owner) ownerName then
        (mapInsert acc.1 detail.ID detail, mapInsert acc.2 detail.ID detail)
      else if scaleStrategyContext ≠ "" then
        (acc.1, mapInsert acc.2 detail.ID detail)
      else acc)
    ([], [])

/-- Environment of one `AllocateID` call: the outcome of the initial Get (a
non-NotFound error, NotFound, or the stored Contexts), the XSet spec, and the
call arguments. -/
structure AllocEnv where
  getErr : Bool
  stored : Option (List ContextDetail)
  spec : XSetSpecM
  ownerName : String
  objs : List TargetObj
  currentRevision : String
  updatedRevision : String
  replicas : Int

/-- Embedding of `AllocateID`: returns the owned ID table (`none` on a Get
error) and the trace of client calls issued. -/
def AllocateID (env : AllocEnv) :
    Option (List (Int × ContextDetail)) × List Action :=
  if env.getErr then (none, [.getRC])
  else
    let contexts := env.stored.getD []
    let pair := collectOwnedExisting contexts env.ownerName env.spec.ScaleStrategyContext
    let ownedIDs := pair.1
    let existingIDs := pair.2
    let unRecordedIDs := getUnRecordTargetIDs existingIDs env.objs env.currentRevision
    if env.replicas ≤ (ownedIDs.length : Int) ∧ unRecordedIDs = [] then
      (some ownedIDs, [.getRC])
    else
      let owned1 := doAllocateID ownedIDs existingIDs unRecordedIDs env.replicas
        env.ownerName env.spec env.currentRevision env.updatedRevision
      if env.stored.isNone then
        (some owned1, [.getRC] ++ (doCreateTargetContext owned1).1)
      else
        (some owned1,
          [.getRC] ++ (doUpdateTargetContext env.spec env.ownerName contexts owned1).1)

/-- C5: when the owner already holds at least `replicas` IDs and no unrecorded
ID exists, `AllocateID` returns the stored owned table unchanged and issues
only the initial Get: no Create, Update or Delete of the ResourceContext. -/
theorem C5_allocate_early_exit (env : AllocEnv)
    (hget : env.getErr = false)
    (hsize : env.replicas ≤
      (((collectOwnedExisting (env.stored.getD []) env.ownerName
          env.spec.ScaleStrategyContext).1).length : Int))
    (hun : getUnRecordTargetIDs
        (collectOwnedExisting (env.stored.getD []) env.ownerName
          env.spec.ScaleStrategyContext).2 env.objs env.currentRevision = []) :
    AllocateID env
      = (some (collectOwnedExisting (env.stored.getD []) env.ownerName
          env.spec.ScaleStrategyContext).1, [Action.getRC])
    ∧ ∀ a ∈ (AllocateID env).2, a.isMutating = false := by
  have hmain : AllocateID env
      = (some (collectOwnedExisting (env.stored.getD []) env.ownerName
          env.spec.ScaleStrategyContext).1, [Action.getRC]) := by
    unfold AllocateID
    rw [hget]
    simp only [Bool.false_eq_true, if_false]
    rw [if_pos ⟨hsize, hun⟩]
  refine ⟨hmain, ?_⟩
  rw [hmain]
  intro a ha
  simp at ha
  rw [ha]
  rfl

/-- C5 witness: one stored owned detail, replicas 1, no targets: the call
returns the stored table and only issues the Get. -/
theorem C5_allocate_early_exit_witness :
    AllocateID ⟨false, some [⟨0, [("Owner", "foo")]⟩], ⟨none, none, ""⟩,
        "foo", [], "r", "r", 1⟩
      = (some (collectOwnedExisting
          ((some [(⟨0, [("Owner", "foo")]⟩ : ContextDetail)]).getD []) "foo"
          (XSetSpecM.mk none none "").ScaleStrategyContext).1, [Action.getRC]) :=
  (C5_allocate_early_exit
    ⟨false, some [⟨0, [("Owner", "foo")]⟩], ⟨none, none, ""⟩, "foo", [], "r", "r", 1⟩
    rfl (by decide) (by decide)).1

/-! ### Reconcile gating (`Reconcile`, `ensureFinalizer` in `xset_controller.go`) -/

inductive GetRes
  | ok
  | notFound
  | err
deriving DecidableEq, Repr

inductive RecOutcome
  | done
  | requeueAfterSeconds (n : Nat)
  | failed
deriving DecidableEq, Repr

/-- Environment of one reconcile: outcomes of the external collaborators.  The
behaviour after the expectation gate (revision construction, doSync, status
write — all driven by external interfaces) is abstracted as the env-provided
`postGateActions`/`postGateResult` continuation. -/
structure ReconcileEnv where
  getParentRes : GetRes
  hasDeletionTimestamp : Bool
  hasFinalizer : Bool
  terminatingDeletedCond : Bool
  finalizerUpdateErr : Bool
  satisfied : Bool
  postGateActions : List Action
  postGateResult : RecOutcome

/-- Embedding of `ensureFinalizer`.  `AddFinalizerAndUpdate` /
`RemoveFinalizerAndUpdate` are kube-utils helpers not under src/; modelled from
the spec: add+update only when the finalizer is missing (§4.F step 2), remove
only when present and the Terminating/Deleted condition holds (§4.E step 5). -/
def ensureFinalizer (env : ReconcileEnv) : List Action × Bool :=
  if ¬ env.hasDeletionTimestamp then
    if env.hasFinalizer then ([], false) else ([.updateParent], env.finalizerUpdateErr)
  else if env.terminatingDeletedCond then
    if env.hasFinalizer then ([.updateParent], env.finalizerUpdateErr) else ([], false)
  else ([], false)

/-- Embedding of `Reconcile` up to the expectation gate; the post-gate suffix is
the env continuation. -/
def Reconcile (env : ReconcileEnv) : List Action × RecOutcome :=
  match env.getParentRes with
  | .err => ([.getParent], .failed)
  | .notFound => ([.getParent], .done)
  | .ok =>
    let fin := ensureFinalizer env
    if fin.2 then ([.getParent] ++ fin.1, .failed)
    else if ¬ env.satisfied then ([.getParent] ++ fin.1, .requeueAfterSeconds 30)
    else ([.getParent] ++ fin.1 ++ env.postGateActions, env.postGateResult)

theorem ensureFinalizer_trace (env : ReconcileEnv) :
    (ensureFinalizer env).1 = [] ∨ (ensureFinalizer env).1 = [Action.updateParent] := by
  unfold ensureFinalizer
  by_cases hdel : env.hasDeletionTimestamp
  · simp only [hdel, not_true, if_false, Bool.not_true]
    by_cases hterm : env.terminatingDeletedCond
    · by_cases hfin : env.hasFinalizer <;> simp [hterm, hfin]
    · simp [hterm]
  · simp only [hdel, Bool.not_false]
    by_cases hfin : env.hasFinalizer <;> simp [hdel, hfin]

/-- C3 counterexample: a reconcile whose parent lacks the finalizer issues the
mutating finalizer Update before consulting the expectation gate, even though
`SatisfiedExpectations` is false and the reconcile then requeues after 30 s —
refuting the claim that no mutating client call is issued in such a
reconcile. -/
theorem C3_gate_counterexample :
    (ReconcileEnv.mk .ok false false false false false [Action.statusUpdate] .done).satisfied
        = false
    ∧ (Reconcile (ReconcileEnv.mk .ok false false false false false
        [Action.statusUpdate] .done)).1 = [Action.getParent, Action.updateParent]
    ∧ Action.isMutating Action.updateParent = true
    ∧ (Reconcile (ReconcileEnv.mk .ok false false false false false
        [Action.statusUpdate] .done)).2 = RecOutcome.requeueAfterSeconds 30 := by
  refine ⟨rfl, ?_, rfl, ?_⟩ <;> rfl

/-- C3 (amended): when `SatisfiedExpectations` is false, the reconcile issues
only the parent Get plus whatever `ensureFinalizer` issued before the gate (at
most one finalizer Update — the only possible mutating call), and when the
finalizer step succeeds it requeues after 30 seconds and does nothing else. -/
theorem C3_gate_amended (env : ReconcileEnv)
    (hok : env.getParentRes = .ok)
    (hsat : env.satisfied = false) :
    (Reconcile env).1 = [Action.getParent] ++ (ensureFinalizer env).1
    ∧ (∀ a ∈ (Reconcile env).1, a.isMutating = true → a = Action.updateParent)
    ∧ ((ensureFinalizer env).2 = false →
        (Reconcile env).2 = RecOutcome.requeueAfterSeconds 30) := by
  have htrace : (Reconcile env).1 = [Action.getParent] ++ (ensureFinalizer env).1 := by
    unfold Reconcile
    rw [hok]
    by_cases hferr : (ensureFinalizer env).2
    · simp [hferr]
    · simp [hferr, hsat]
  refine ⟨htrace, ?_, ?_⟩
  · intro a ha hmut
    rw [htrace] at ha
    rcases List.mem_append.mp ha with h | h
    · simp at h
      rw [h] at hmut
      exact absurd hmut (by decide)
    · rcases ensureFinalizer_trace env with he | he
      · rw [he] at h
        simp at h
      · rw [he] at h
        simpa using h
  · intro hferr
    unfold Reconcile
    rw [hok]
    simp [hferr, hsat]

/-- C3 witness: parent fetched, finalizer already present, expectations not
satisfied — the trace is just the Get plus the (empty) finalizer trace. -/
theorem C3_gate_amended_witness :
    (Reconcile (ReconcileEnv.mk .ok false true false false false
        [Action.statusUpdate] .done)).1
      = [Action.getParent] ++ (ensureFinalizer (ReconcileEnv.mk .ok false true false
          false false [Action.statusUpdate] .done)).1
    ∧ ((ensureFinalizer (ReconcileEnv.mk .ok false true false false false
          [Action.statusUpdate] .done)).2 = false →
        (Reconcile (ReconcileEnv.mk .ok false true false false false
          [Action.statusUpdate] .done)).2 = RecOutcome.requeueAfterSeconds 30) :=
  ⟨(C3_gate_amended (ReconcileEnv.mk .ok false true false false false
      [Action.statusUpdate] .done) rfl rfl).1,
   (C3_gate_amended (ReconcileEnv.mk .ok false true false false false
      [Action.statusUpdate] .done) rfl rfl).2.2⟩

/-! ### Teardown orchestrator (`releaseResourcesForDeletion`) -/

inductive TerminatingReason
  | ReclaimSubResourcesFailed
  | ReclaimOwnerReferencesFailed
  | ReclaimTargetsDeletionFailed
  | ReclaimingTargetsDeletion
  | ReclaimResourceContext
  | Deleted
deriving DecidableEq, Repr

/-- Environment of one teardown pass: outcomes of the external stages.  The
PVC/owner-reference reclaim stages act through external adapters, so only their
success/failure is modelled; the filtered-target query result and the
release-pool (`UpdateToTargetContext`) outcome are explicit. -/
structure TeardownEnv where
  hasDeletionTimestamp : Bool
  subResErr : Bool
  ownerRefErr : Bool
  getTargetsRes : Option (List TargetObj)
  batchDeleteErr : Bool
  releasePoolErr : Bool

/-- Embedding of `ensureReclaimTargetsDeletion`: `(cleaned, errored)`. -/
def ensureReclaimTargetsDeletion (env : TeardownEnv) : Bool × Bool :=
  match env.getTargetsRes with
  | none => (false, true)
  | some ts =>
    if ts.isEmpty then (true, false)
    else if ts.all (fun t => t.hasDeletionTimestamp) then (false, false)
    else (false, env.batchDeleteErr)

/-- Embedding of `releaseResourcesForDeletion`: `(terminating, condition reason
written this pass, errored)`. -/
def releaseResourcesForDeletion (env : TeardownEnv) :
    Bool × Option TerminatingReason × Bool :=
  if ¬ env.hasDeletionTimestamp then (false, none, false)
  else if env.subResErr then (true, some .ReclaimSubResourcesFailed, true)
  else if env.ownerRefErr then (true, some .ReclaimOwnerReferencesFailed, true)
  else
    match ensureReclaimTargetsDeletion env with
    | (_, true) => (true, some .ReclaimTargetsDeletionFailed, true)
    | (false, false) => (true, some .ReclaimingTargetsDeletion, false)
    | (true, false) =>
      if env.releasePoolErr then (true, some .ReclaimResourceContext, true)
      else (true, some .Deleted, false)

/-- C4: during teardown, the `XSetTerminating` condition is written with
Reason=Deleted exactly when the sub-resource and owner-reference stages
succeeded, the filtered-target query returned an empty list, and the ID pool
release succeeded; in every pass some reason is written, a failing stage writes
that stage's reason, and while targets remain the reason is
ReclaimTargetsDeletionFailed or ReclaimingTargetsDeletion — never Deleted. -/
theorem C4_teardown_deleted_gating (env : TeardownEnv)
    (hdel : env.hasDeletionTimestamp = true) :
    ((releaseResourcesForDeletion env).2.1 = some .Deleted ↔
      (env.subResErr = false ∧ env.ownerRefErr = false
        ∧ env.getTargetsRes = some ([] : List TargetObj)
        ∧ env.releasePoolErr = false))
    ∧ (releaseResourcesForDeletion env).2.1 ≠ none
    ∧ (env.subResErr = true →
        (releaseResourcesForDeletion env).2.1 = some .ReclaimSubResourcesFailed)
    ∧ (env.subResErr = false → env.ownerRefErr = true →
        (releaseResourcesForDeletion env).2.1 = some .ReclaimOwnerReferencesFailed)
    ∧ (env.subResErr = false → env.ownerRefErr = false → env.getTargetsRes = none →
        (releaseResourcesForDeletion env).2.1 = some .ReclaimTargetsDeletionFailed)
    ∧ (∀ ts : List TargetObj, env.subResErr = false → env.ownerRefErr = false →
        env.getTargetsRes = some ts → ts ≠ [] →
        ((releaseResourcesForDeletion env).2.1 = some .ReclaimTargetsDeletionFailed
          ∨ (releaseResourcesForDeletion env).2.1 = some .ReclaimingTargetsDeletion))
    ∧ (env.subResErr = false → env.ownerRefErr = false →
        env.getTargetsRes = some ([] : List TargetObj) → env.releasePoolErr = true →
        (releaseResourcesForDeletion env).2.1 = some .ReclaimResourceContext) := by
  obtain ⟨hd, sr, orr, gt, bd, rp⟩ := env
  simp only at hdel
  subst hdel
  cases sr with
  | true =>
    simp [releaseResourcesForDeletion, ensureReclaimTargetsDeletion]
  | false =>
    cases orr with
    | true =>
      simp [releaseResourcesForDeletion, ensureReclaimTargetsDeletion]
    | false =>
      cases gt with
      | none =>
        simp [releaseResourcesForDeletion, ensureReclaimTargetsDeletion]
      | some ts =>
        cases ts with
        | nil =>
          cases rp <;>
            simp [releaseResourcesForDeletion, ensureReclaimTargetsDeletion]
        | cons t rest =>
          by_cases hall : (t :: rest).all (fun x => x.hasDeletionTimestamp)
          · simp [releaseResourcesForDeletion, ensureReclaimTargetsDeletion, hall]
          · cases bd <;>
              simp [releaseResourcesForDeletion, ensureReclaimTargetsDeletion, hall]

/-- C4 witness: a deleting parent with all stages healthy and no remaining
targets gets Reason=Deleted; with a target still present the reason is in the
reclaiming family. -/
theorem C4_teardown_deleted_gating_witness :
    ((releaseResourcesForDeletion
        (TeardownEnv.mk true false false (some []) false false)).2.1
      = some TerminatingReason.Deleted ↔
      (false = false ∧ false = false
        ∧ (some ([] : List TargetObj) : Option (List TargetObj))
            = some ([] : List TargetObj)
        ∧ false = false))
    ∧ (releaseResourcesForDeletion
        (TeardownEnv.mk true false false (some []) false false)).2.1 ≠ none :=
  ⟨(C4_teardown_deleted_gating
      (TeardownEnv.mk true false false (some []) false false) rfl).1,
   (C4_teardown_deleted_gating
      (TeardownEnv.mk true false false (some []) false false) rfl).2.1⟩

end KubeXSet
